import Mathlib

/-!
Verification of the podcast-scraper ingestion-and-export pipeline.

Each Python function of the repository that the properties below talk about is
shallowly embedded as an executable Lean definition operating on `List Char`
(for text), `Int` (for Python integers), `Option` (for Python `None`) and
explicit state values (for the SQLite store and the audio-cache filesystem).
-/

namespace PodScraper

/-! ## Character classes

Python `str.isspace` (restricted to the ASCII whitespace characters that can
actually occur in this pipeline) and the blank class `[ \t]` used by the
whitespace-collapsing regular expression in `export.py`.
-/

def isBlank (c : Char) : Bool :=
  c = ' ' || c = '\t'

def isSpaceCh (c : Char) : Bool :=
  c = ' ' || c = '\t' || c = '\n' || c = '\r' || c = '\x0b' || c = '\x0c'

/-! ## Embedding of `_normalize_excerpt_text` (src/export.py, lines 96-101)

The Python function performs, in order:
1. `text.replace("\r\n", "\n").replace("\r", "\n")`
2. `re.sub(r"[ \t]+", " ", t)`
3. `re.sub(r"\n{3,}", "\n\n", t)`
4. `t.strip()`
-/

/-- Step 1: both replaces combined; a `"\r\n"` pair becomes one `'\n'` and a
lone `'\r'` becomes `'\n'`, scanning left to right exactly as the two
sequential `str.replace` calls do. -/
def normCR : List Char → List Char
  | [] => []
  | [c] => [if c = '\r' then '\n' else c]
  | c :: d :: cs =>
    if c = '\r' then
      if d = '\n' then '\n' :: normCR cs else '\n' :: normCR (d :: cs)
    else c :: normCR (d :: cs)

/-- Step 2: every maximal run of spaces/tabs is replaced by a single space
(`re.sub` with pattern `[ \t]+` and replacement `" "`). -/
def collapseBlanks : List Char → List Char
  | [] => []
  | [c] => if isBlank c then [' '] else [c]
  | c :: d :: cs =>
    if isBlank c then
      if isBlank d then collapseBlanks (d :: cs)
      else ' ' :: collapseBlanks (d :: cs)
    else c :: collapseBlanks (d :: cs)

/-- Step 3: every maximal run of three or more newlines is replaced by exactly
two newlines (`re.sub` with pattern `\n{3,}` and replacement `"\n\n"`): while
three consecutive newlines are visible at the front, the first is dropped. -/
def collapseNL : List Char → List Char
  | [] => []
  | [c] => [c]
  | [c, d] => [c, d]
  | c :: d :: e :: cs =>
    if c = '\n' ∧ d = '\n' ∧ e = '\n' then collapseNL (d :: e :: cs)
    else c :: collapseNL (d :: e :: cs)

/-- Trailing-whitespace removal, the right half of Python `str.strip`. -/
def dropTrailingWs : List Char → List Char
  | [] => []
  | c :: cs =>
    match dropTrailingWs cs with
    | [] => if isSpaceCh c then [] else [c]
    | rest => c :: rest

/-- Python `str.strip()`: drop leading and trailing whitespace. -/
def pyStrip (l : List Char) : List Char :=
  dropTrailingWs (l.dropWhile isSpaceCh)

/-- `_normalize_excerpt_text` from src/export.py. -/
def normalizeExcerptText (text : List Char) : List Char :=
  pyStrip (collapseNL (collapseBlanks (normCR text)))

/-- Normal-form predicate: no two adjacent space-or-tab characters (the
fixed points of `collapseBlanks` are characterized by this together with
absence of tabs). -/
def noDoubleBlank : List Char → Prop
  | [] => True
  | [_] => True
  | c :: d :: cs => ¬(isBlank c = true ∧ isBlank d = true) ∧ noDoubleBlank (d :: cs)

/-- Normal-form predicate: no three consecutive newline characters (the fixed
points of `collapseNL`). -/
def noTripleNL : List Char → Prop
  | [] => True
  | [_] => True
  | [_, _] => True
  | c :: d :: e :: cs =>
    ¬(c = '\n' ∧ d = '\n' ∧ e = '\n') ∧ noTripleNL (d :: e :: cs)

/-! ## Embedding of `_excerpt_transcript` (src/export.py, lines 104-125) -/

/-- The separator `"\n...\n"` used between excerpt segments. -/
def excerptSep : List Char := ['\n', '.', '.', '.', '\n']

/-- The part size `max(200, budget // 3)` computed in `_excerpt_transcript`
(`budget = max_chars - 2 * len(sep)`, and `len(sep) = 5`). -/
def excerptPart (maxChars : Int) : Int :=
  max 200 ((maxChars - 10) / 3)

/-- `_excerpt_transcript(text, max_chars)` from src/export.py.  Python slices
`t[:part]`, `t[mid_start : mid_start + part]` and `t[-part:]` (with
`part > 0`) are `List.take`/`List.drop` combinations; the clamp
`max(0, len(t) // 2 - part // 2)` is taken on `Int` and converted with
`Int.toNat` where the slice needs a natural number. -/
def excerptTranscript (text : List Char) (maxChars : Int) : List Char :=
  let t := normalizeExcerptText text
  if maxChars ≤ 0 then []
  else if (t.length : Int) ≤ maxChars then t
  else
    let budget : Int := maxChars - 10
    if budget ≤ 0 then pyStrip (t.take maxChars.toNat)
    else
      let part := excerptPart maxChars
      let head := t.take part.toNat
      let midStart : Int := max 0 ((t.length : Int) / 2 - part / 2)
      let mid := (t.drop midStart.toNat).take part.toNat
      let tail := t.drop (t.length - part.toNat)
      pyStrip (pyStrip head ++ excerptSep ++ pyStrip mid ++ excerptSep ++ pyStrip tail)

/-! ## Embedding of the episode store (src/db.py)

The `episodes` table is modelled as a map from the primary key `id` to a row;
`store_episode` is the INSERT … ON CONFLICT(id) DO UPDATE upsert.  The
`scraped_at` timestamp `datetime.now(timezone.utc).isoformat()` is an external
input and is passed in as the `now` argument.
-/

/-- Python `str.split()` with no arguments: the maximal runs of non-whitespace
characters, with no empty tokens. -/
def pySplitAux : List Char → List Char → List (List Char)
  | [], acc => if acc = [] then [] else [acc.reverse]
  | c :: cs, acc =>
    if isSpaceCh c then
      if acc = [] then pySplitAux cs [] else acc.reverse :: pySplitAux cs []
    else pySplitAux cs (c :: acc)

def pySplit (s : List Char) : List (List Char) :=
  pySplitAux s []

/-- `len(transcript.split()) if transcript else 0` from `store_episode`
(src/db.py, line 59). -/
def pyWordCount (transcript : String) : Nat :=
  if transcript = "" then 0 else (pySplit transcript.data).length

/-- One row of the `episodes` table (src/db.py, lines 10-22), without the
primary key `id` which is the map key. -/
structure EpisodeRow where
  feedName : String
  feedUrl : String
  title : String
  publishedAt : Option String
  audioUrl : Option String
  audioPath : Option String
  transcript : String
  transcriptSource : String
  scrapedAt : String
  wordCount : Nat
deriving DecidableEq, Repr

def Store : Type := String → Option EpisodeRow

/-- The empty database. -/
def emptyStore : Store := fun _ => none

/-- `episode_exists` (src/db.py, lines 38-43). -/
def episodeExists (st : Store) (episodeId : String) : Bool :=
  (st episodeId).isSome

/-- `store_episode` (src/db.py, lines 46-79): insert a new row, or on an `id`
conflict update only `transcript`, `transcript_source`, `audio_path`,
`scraped_at` and `word_count` from the excluded row. -/
def storeEpisode (st : Store) (episodeId feedName feedUrl title : String)
    (publishedAt audioUrl audioPath : Option String)
    (transcript transcriptSource : String) (now : String) : Store :=
  let wordCount := pyWordCount transcript
  fun k =>
    if k = episodeId then
      some (match st episodeId with
        | some old =>
          { old with
            transcript := transcript
            transcriptSource := transcriptSource
            audioPath := audioPath
            scrapedAt := now
            wordCount := wordCount }
        | none =>
          { feedName := feedName
            feedUrl := feedUrl
            title := title
            publishedAt := publishedAt
            audioUrl := audioUrl
            audioPath := audioPath
            transcript := transcript
            transcriptSource := transcriptSource
            scrapedAt := now
            wordCount := wordCount })
    else st k

/-- Store states reachable from the empty database by any sequence of
`store_episode` calls. -/
inductive ReachableStore : Store → Prop
  | empty : ReachableStore emptyStore
  | step (st : Store) (episodeId feedName feedUrl title : String)
      (publishedAt audioUrl audioPath : Option String)
      (transcript transcriptSource now : String) :
      ReachableStore st →
      ReachableStore (storeEpisode st episodeId feedName feedUrl title publishedAt
        audioUrl audioPath transcript transcriptSource now)

/-! ## Embedding of the per-episode scrape step (src/cli.py, lines 60-109)

The external collaborators (transcript fetch, audio download, transcription)
are modelled by their results, collected in `ScrapeInputs`.
-/

/-- External inputs consumed while `cmd_scrape` processes one episode. -/
structure ScrapeInputs where
  /-- `ep.transcript_url`. -/
  transcriptUrl : Option String
  /-- `ep.audio_url`. -/
  audioUrl : Option String
  /-- What `fetch_transcript` returns if called (`none` models a request
  failure, which `fetch_transcript` maps to `None`). -/
  fetchResult : Option String
  /-- What the audio path plus `transcribe_audio` yield if reached;
  `Except.error` models a raised exception in `download_audio` or
  `transcribe_audio`. -/
  audioResult : Except Unit (String × String)

/-- Lines 69-93 of src/cli.py: the two-strategy acquisition policy, including
the final `if not transcript: continue` guard.  Returns
`some (transcript, transcriptSource, audioPath)` exactly when the episode goes
on to be persisted. -/
def acquireTranscript (inp : ScrapeInputs) : Option (String × String × Option String) :=
  let fetched : Option String :=
    if inp.transcriptUrl.isSome then inp.fetchResult else none
  if fetched.getD "" ≠ "" then some (fetched.getD "", "podcast2.0", none)
  else if inp.audioUrl.isSome then
    match inp.audioResult with
    | Except.error _ => none
    | Except.ok (audioPath, transcript) =>
      if transcript ≠ "" then some (transcript, "whisper", some audioPath) else none
  else none

/-- One iteration of the episode loop in `cmd_scrape`: skip when the id is
already stored, otherwise acquire a transcript and persist only on success. -/
def scrapeEpisode (st : Store) (episodeId feedName feedUrl title : String)
    (publishedAt : Option String) (inp : ScrapeInputs) (now : String) : Store :=
  if episodeExists st episodeId then st
  else
    match acquireTranscript inp with
    | none => st
    | some (transcript, transcriptSource, audioPath) =>
      storeEpisode st episodeId feedName feedUrl title publishedAt inp.audioUrl
        audioPath transcript transcriptSource now

/-- Store states reachable from the empty database through the pipeline's own
persistence path (`cmd_scrape`; `cmd_adhoc` runs the identical logic). -/
inductive PipelineReachable : Store → Prop
  | empty : PipelineReachable emptyStore
  | step (st : Store) (episodeId feedName feedUrl title : String)
      (publishedAt : Option String) (inp : ScrapeInputs) (now : String) :
      PipelineReachable st →
      PipelineReachable (scrapeEpisode st episodeId feedName feedUrl title
        publishedAt inp now)

/-! ## Embedding of `export_transcripts_json` (src/export.py, lines 128-183)

The episode rows delivered by the database query are the input list.  The
selection loop with its two caps is embedded directly; the
`defaultdict(int)` of per-feed counts is an insertion-ordered association
list with unique keys, as a Python dict is.
-/

/-- A row as returned by `db.fetch_recent` / `db.fetch_by_group` and consumed
through `ep.get(...)` in `export_transcripts_json`. -/
structure FetchedEpisode where
  id : Option String
  feedName : Option String
  title : Option String
  publishedAt : Option String
  scrapedAt : Option String
  wordCount : Option Nat
  transcript : Option String
deriving DecidableEq, Repr

/-- The JSON object built for one selected episode (lines 165-175). -/
structure SelectedEpisode where
  episodeId : Option String
  feedName : String
  title : String
  publishedAt : Option String
  scrapedAt : Option String
  wordCount : Nat
  transcriptExcerpt : List Char
deriving DecidableEq, Repr

def dictLookup : List (String × Nat) → String → Option Nat
  | [], _ => none
  | (k', v) :: rest, k => if k' = k then some v else dictLookup rest k

/-- Reading `per_feed_counts[feed_name]` on a `defaultdict(int)`: returns the
current value together with the dict, which gains a 0 binding when the key was
absent. -/
def dictGetIns (m : List (String × Nat)) (k : String) : Nat × List (String × Nat) :=
  match dictLookup m k with
  | some v => (v, m)
  | none => (0, m ++ [(k, 0)])

def dictSet : List (String × Nat) → String → Nat → List (String × Nat)
  | [], k, v => [(k, v)]
  | (k', v') :: rest, k, v =>
    if k' = k then (k, v) :: rest else (k', v') :: dictSet rest k v

/-- `per_feed_counts[feed_name] += 1` on a `defaultdict(int)`. -/
def dictIncr (m : List (String × Nat)) (k : String) : List (String × Nat) :=
  dictSet m k ((dictLookup m k).getD 0 + 1)

def mkSelected (ep : FetchedEpisode) (excerptChars : Int) : SelectedEpisode :=
  { episodeId := ep.id
    feedName := ep.feedName.getD ""
    title := ep.title.getD ""
    publishedAt := ep.publishedAt
    scrapedAt := ep.scrapedAt
    wordCount := ep.wordCount.getD 0
    transcriptExcerpt := excerptTranscript (ep.transcript.getD "").data excerptChars }

/-- The selection loop of `export_transcripts_json` (lines 150-176): the
global cap breaks the loop, blank transcripts are skipped, and the per-feed
cap — only consulted when positive — skips episodes of saturated feeds. -/
def selectLoop (eps : List FetchedEpisode) (maxTotal maxPerFeed excerptChars : Int)
    (sel : List SelectedEpisode) (counts : List (String × Nat)) :
    List SelectedEpisode × List (String × Nat) :=
  match eps with
  | [] => (sel, counts)
  | ep :: rest =>
    if (sel.length : Int) ≥ maxTotal then (sel, counts)
    else if pyStrip (ep.transcript.getD "").data = [] then
      selectLoop rest maxTotal maxPerFeed excerptChars sel counts
    else
      let feedName := ep.feedName.getD ""
      if 0 < maxPerFeed then
        let read := dictGetIns counts feedName
        if (read.1 : Int) ≥ maxPerFeed then
          selectLoop rest maxTotal maxPerFeed excerptChars sel read.2
        else
          selectLoop rest maxTotal maxPerFeed excerptChars
            (sel ++ [mkSelected ep excerptChars]) (dictIncr read.2 feedName)
      else
        selectLoop rest maxTotal maxPerFeed excerptChars
          (sel ++ [mkSelected ep excerptChars]) (dictIncr counts feedName)

/-- The payload returned by `export_transcripts_json` (lines 178-183). -/
structure ExportPayload where
  episodeCount : Nat
  feedCount : Nat
  lookbackHours : Int
  episodes : List SelectedEpisode
deriving DecidableEq, Repr

/-- `export_transcripts_json` applied to the rows the database query
returned. -/
def exportTranscriptsJson (episodes : List FetchedEpisode) (lookbackHours : Int)
    (maxEpisodesTotal maxEpisodesPerFeed excerptChars : Int) : ExportPayload :=
  let res := selectLoop episodes maxEpisodesTotal maxEpisodesPerFeed excerptChars [] []
  { episodeCount := res.1.length
    feedCount := (res.2.filter (fun kv => 0 < kv.2)).length
    lookbackHours := lookbackHours
    episodes := res.1 }

/-- A single-episode input list used by the C3 counterexample and witness. -/
def cxEpisode : FetchedEpisode :=
  { id := some "e"
    feedName := some "f"
    title := some "t"
    publishedAt := none
    scrapedAt := none
    wordCount := some 1
    transcript := some "hello" }

/-! ## SHA-256 (`hashlib.sha256`)

`_get_episode_id` (src/feed.py) and `_episode_cache_path` (src/transcribe.py)
both derive identifiers from truncated SHA-256 hex digests of UTF-8 encoded
strings; the hash is computed here on `Nat` with explicit reduction
modulo `2 ^ 32`.
-/

def w32 (n : Nat) : Nat := n % 4294967296

def rotr32 (k x : Nat) : Nat := w32 ((x >>> k) ||| (x <<< (32 - k)))

def shaCh (x y z : Nat) : Nat := (x &&& y) ^^^ ((x ^^^ 4294967295) &&& z)

def shaMaj (x y z : Nat) : Nat := (x &&& y) ^^^ (x &&& z) ^^^ (y &&& z)

def bSig0 (x : Nat) : Nat := rotr32 2 x ^^^ rotr32 13 x ^^^ rotr32 22 x

def bSig1 (x : Nat) : Nat := rotr32 6 x ^^^ rotr32 11 x ^^^ rotr32 25 x

def sSig0 (x : Nat) : Nat := rotr32 7 x ^^^ rotr32 18 x ^^^ (x >>> 3)

def sSig1 (x : Nat) : Nat := rotr32 17 x ^^^ rotr32 19 x ^^^ (x >>> 10)

def shaK : List Nat :=
  [1116352408, 1899447441, 3049323471, 3921009573, 961987163,
   1508970993, 2453635748, 2870763221, 3624381080, 310598401,
   607225278, 1426881987, 1925078388, 2162078206, 2614888103,
   3248222580, 3835390401, 4022224774, 264347078, 604807628,
   770255983, 1249150122, 1555081692, 1996064986, 2554220882,
   2821834349, 2952996808, 3210313671, 3336571891, 3584528711,
   113926993, 338241895, 666307205, 773529912, 1294757372,
   1396182291, 1695183700, 1986661051, 2177026350, 2456956037,
   2730485921, 2820302411, 3259730800, 3345764771, 3516065817,
   3600352804, 4094571909, 275423344, 430227734, 506948616,
   659060556, 883997877, 958139571, 1322822218, 1537002063,
   1747873779, 1955562222, 2024104815, 2227730452, 2361852424,
   2428436474, 2756734187, 3204031479, 3329325298]

def shaInitH : List Nat :=
  [1779033703, 3144134277, 1013904242, 2773480762,
   1359893119, 2600822924, 528734635, 1541459225]

def shaSchedule (block : List Nat) : List Nat :=
  (List.range 64).foldl
    (fun w i =>
      if i < 16 then w ++ [block.getD i 0]
      else w ++ [w32 (sSig1 (w.getD (i - 2) 0) + w.getD (i - 7) 0
        + sSig0 (w.getD (i - 15) 0) + w.getD (i - 16) 0)])
    []

def shaCompress (h : List Nat) (block : List Nat) : List Nat :=
  let w := shaSchedule block
  let final := (List.range 64).foldl
    (fun st i =>
      let a := st.getD 0 0
      let b := st.getD 1 0
      let c := st.getD 2 0
      let d := st.getD 3 0
      let e := st.getD 4 0
      let f := st.getD 5 0
      let g := st.getD 6 0
      let hh := st.getD 7 0
      let t1 := w32 (hh + bSig1 e + shaCh e f g + shaK.getD i 0 + w.getD i 0)
      let t2 := w32 (bSig0 a + shaMaj a b c)
      [w32 (t1 + t2), a, b, c, w32 (d + t1), e, f, g])
    h
  List.zipWith (fun x y => w32 (x + y)) h final

/-- UTF-8 encoding of one character (`str.encode()`). -/
def utf8Char (c : Char) : List Nat :=
  let n := c.toNat
  if n < 128 then [n]
  else if n < 2048 then [192 + n / 64, 128 + n % 64]
  else if n < 65536 then [224 + n / 4096, 128 + (n / 64) % 64, 128 + n % 64]
  else [240 + n / 262144, 128 + (n / 4096) % 64, 128 + (n / 64) % 64, 128 + n % 64]

def utf8Bytes (s : String) : List Nat :=
  (s.data.map utf8Char).flatten

def bigEndian8 (n : Nat) : List Nat :=
  [n / 72057594037927936 % 256, n / 281474976710656 % 256,
   n / 1099511627776 % 256, n / 4294967296 % 256,
   n / 16777216 % 256, n / 65536 % 256, n / 256 % 256, n % 256]

def shaPad (msg : List Nat) : List Nat :=
  let padZeros := (119 - msg.length % 64) % 64
  msg ++ [128] ++ List.replicate padZeros 0 ++ bigEndian8 (8 * msg.length)

def bytesToWords : List Nat → List Nat
  | b0 :: b1 :: b2 :: b3 :: rest =>
    (b0 * 16777216 + b1 * 65536 + b2 * 256 + b3) :: bytesToWords rest
  | _ => []

def wordBlocks : Nat → List Nat → List (List Nat)
  | 0, _ => []
  | _, [] => []
  | fuel + 1, ws => ws.take 16 :: wordBlocks fuel (ws.drop 16)

def sha256Words (msg : List Nat) : List Nat :=
  let ws := bytesToWords (shaPad msg)
  (wordBlocks (ws.length + 1) ws).foldl shaCompress shaInitH

def hexDigit (n : Nat) : Char :=
  "0123456789abcdef".data.getD n '0'

def byteHex (n : Nat) : List Char :=
  [hexDigit (n / 16 % 16), hexDigit (n % 16)]

def wordHex (n : Nat) : List Char :=
  byteHex (n / 16777216 % 256) ++ byteHex (n / 65536 % 256)
    ++ byteHex (n / 256 % 256) ++ byteHex (n % 256)

/-- `hashlib.sha256(s.encode()).hexdigest()`. -/
def sha256Hex (s : String) : String :=
  String.mk ((sha256Words (utf8Bytes s)).map wordHex).flatten

/-! ## Embedding of `_get_episode_id` (src/feed.py, lines 71-79) -/

/-- The fields of a feed entry that `_get_episode_id` consults (`entry` is a
loosely-typed record from the external parser; `entry.get(...)` returns
`None` for a missing field). -/
structure FeedEntry where
  id : Option String
  guid : Option String
  title : Option String
deriving DecidableEq, Repr

/-- Python `entry.get("id") or entry.get("guid")`: the `id` field when truthy
(non-empty), otherwise the `guid` field. -/
def entryGuid (e : FeedEntry) : Option String :=
  if e.id.getD "" ≠ "" then e.id else e.guid

/-- `_get_episode_id(entry, feed_url)`: the guid when truthy, else the first
32 hex characters of `sha256(f"{feed_url}:{title}")` with `title` defaulting
to "unknown". -/
def getEpisodeId (e : FeedEntry) (feedUrl : String) : String :=
  let guid := entryGuid e
  if guid.getD "" ≠ "" then guid.getD ""
  else (sha256Hex (feedUrl ++ ":" ++ e.title.getD "unknown")).take 32

/-- A feed entry whose id field is present but empty, used by the C6
counterexample. -/
def cxEntry : FeedEntry := { id := some "", guid := none, title := some "t" }

/-! ## Embedding of `_episode_cache_path` and `download_audio`
(src/transcribe.py, lines 11-56)

The local filesystem is an association list from path to file content; the
streaming HTTP response is modelled by the list of chunks it delivers and by
flags for the two failure points (`raise_for_status`, and a transport error
raised from `iter_content` after the listed chunks were already written).
-/

def audioExtensions : List String := [".mp3", ".m4a", ".ogg", ".wav", ".mp4"]

/-- ASCII lower-casing, the fragment of `str.lower()` relevant to URLs. -/
def asciiLower (c : Char) : Char :=
  if 'A' ≤ c ∧ c ≤ 'Z' then Char.ofNat (c.toNat + 32) else c

/-- The extension guess of `_episode_cache_path`: the first of the fixed
candidates that `audio_url.lower().split("?")[0]` ends with, else ".mp3". -/
def guessExt (audioUrl : String) : String :=
  let base := (audioUrl.data.map asciiLower).takeWhile (fun c => c ≠ '?')
  match audioExtensions.find? (fun ext => ext.data.isSuffixOf base) with
  | some ext => ext
  | none => ".mp3"

/-- `os.path.join` for the POSIX paths this pipeline uses. -/
def pathJoin (a b : String) : String :=
  if a = "" then b
  else if a.data.getLast? = some '/' then a ++ b
  else a ++ "/" ++ b

/-- `_episode_cache_path(audio_url, cache_dir)`: 16 hex characters of the
URL's SHA-256 plus the guessed extension, joined onto the cache dir. -/
def episodeCachePath (audioUrl cacheDir : String) : String :=
  pathJoin cacheDir ((sha256Hex audioUrl).take 16 ++ guessExt audioUrl)

/-- The local filesystem: an association list from path to file content. -/
abbrev Fs : Type := List (String × String)

def fsGet : Fs → String → Option String
  | [], _ => none
  | (p, c) :: rest, q => if p = q then some c else fsGet rest q

def fsSet : Fs → String → String → Fs
  | [], p, c => [(p, c)]
  | (p', c') :: rest, p, c =>
    if p' = p then (p, c) :: rest else (p', c') :: fsSet rest p c

/-- `download_audio(audio_url, cache_dir)` on filesystem `fs`.  `chunks` are
the chunks the streaming response delivers before either completing
(`streamFail = false`) or raising a transport error (`streamFail = true`);
`statusFail` models `raise_for_status` raising before the file is opened.
Returns the filesystem afterwards, and `some path` on normal return or `none`
when an exception propagates.  The code opens the final cache path directly
and writes chunks into it, so a mid-stream failure leaves the partial
content at that path. -/
def downloadAudio (fs : Fs) (audioUrl cacheDir : String)
    (statusFail : Bool) (chunks : List String) (streamFail : Bool) :
    Fs × Option String :=
  let localPath := episodeCachePath audioUrl cacheDir
  match fsGet fs localPath with
  | some _ => (fs, some localPath)
  | none =>
    if statusFail then (fs, none)
    else
      let content := chunks.foldl (fun acc c => acc ++ c) ""
      if streamFail then (fsSet fs localPath content, none)
      else (fsSet fs localPath content, some localPath)

/-- The audio URL used by the C2 failing input. -/
def cxUrl : String := "http://h/a.mp3"

/-! ## Embedding of `_format_date` (src/export.py, lines 14-28) -/

/-- `_format_date(published_at)`.  `rfcToIso` models lines 23-26: parsing with
the stdlib `email.utils.parsedate_to_datetime` and reformatting with
`strftime("%Y-%m-%d")`, returning `none` when the parse raises; the stdlib
parser is an external collaborator and is a parameter here. -/
def formatDate (rfcToIso : String → Option String)
    (publishedAt : Option String) : String :=
  match publishedAt with
  | none => "unknown date"
  | some s =>
    if s = "" then "unknown date"
    else if 10 ≤ s.length ∧ s.data.getD 4 ' ' = '-' then s.take 10
    else
      match rfcToIso s with
      | some d => d
      | none => s.take 20

/-- Reference definition for C7 following the claim's words verbatim: only an
absent `publishedAt` yields "unknown date"; an empty string falls through to
the first-20-characters branch. -/
def formatDateSpec (rfcToIso : String → Option String)
    (publishedAt : Option String) : String :=
  match publishedAt with
  | none => "unknown date"
  | some s =>
    if 10 ≤ s.length ∧ s.data.getD 4 ' ' = '-' then s.take 10
    else
      match rfcToIso s with
      | some d => d
      | none => s.take 20

/-- Reference definition for the amended C7: like `formatDateSpec` but
treating an empty string like an absent value, as the code's falsiness test
`if not published_at` does. -/
def formatDateSpecAmended (rfcToIso : String → Option String)
    (publishedAt : Option String) : String :=
  match publishedAt with
  | none => "unknown date"
  | some s => if s = "" then "unknown date" else formatDateSpec rfcToIso (some s)

/-- A parse stub for the C7 counterexample: `parsedate_to_datetime` raises on
the empty string, so any faithful parse model returns `none` there; at the
empty string the choice elsewhere is irrelevant. -/
def rfcParseNone : String → Option String := fun _ => none

/-! ## Concrete values used by witnesses -/

/-- A one-row store obtained by a single upsert into the empty database. -/
def demoStore : Store :=
  storeEpisode emptyStore "ep-1" "Feed A" "http://feed" "Title One"
    (some "2026-01-01") (some "http://a.mp3") none "hello brave world"
    "podcast2.0" "2026-01-02T00:00:00"

/-- The row stored in `demoStore` under id "ep-1". -/
def demoRow : EpisodeRow :=
  { feedName := "Feed A"
    feedUrl := "http://feed"
    title := "Title One"
    publishedAt := some "2026-01-01"
    audioUrl := some "http://a.mp3"
    audioPath := none
    transcript := "hello brave world"
    transcriptSource := "podcast2.0"
    scrapedAt := "2026-01-02T00:00:00"
    wordCount := 3 }

/-- External inputs where the publisher transcript fetch succeeds. -/
def demoInputs : ScrapeInputs :=
  { transcriptUrl := some "http://t"
    audioUrl := some "http://a.mp3"
    fetchResult := some "words of wisdom"
    audioResult := Except.error () }

/-- A one-row store produced by the pipeline's own persistence path. -/
def demoPipelineStore : Store :=
  scrapeEpisode emptyStore "ep-2" "Feed B" "http://feedb" "Title Two" none
    demoInputs "now0"

/-- The row stored in `demoPipelineStore` under id "ep-2". -/
def demoPipelineRow : EpisodeRow :=
  { feedName := "Feed B"
    feedUrl := "http://feedb"
    title := "Title Two"
    publishedAt := none
    audioUrl := some "http://a.mp3"
    audioPath := none
    transcript := "words of wisdom"
    transcriptSource := "podcast2.0"
    scrapedAt := "now0"
    wordCount := 3 }

/-! ## Lemmas about the whitespace-normalization pipeline -/

theorem cr_not_mem_normCR (l : List Char) : '\r' ∉ normCR l := by
  induction l using normCR.induct with
  | case1 => simp [normCR]
  | case2 c =>
    simp only [normCR]
    by_cases h : c = '\r'
    · rw [if_pos h]; decide
    · rw [if_neg h]
      simp only [List.mem_singleton]
      exact fun he => h he.symm
  | case3 cs ih =>
    simp [normCR]
    exact ih
  | case4 d cs hd ih =>
    simp [normCR, hd]
    exact ih
  | case5 c d cs hc ih =>
    simp only [normCR, if_neg hc, List.mem_cons]
    rintro (he | he)
    · exact hc he.symm
    · exact ih he

theorem normCR_eq_self (l : List Char) (h : '\r' ∉ l) : normCR l = l := by
  induction l using normCR.induct with
  | case1 => simp [normCR]
  | case2 c =>
    have hc : ¬c = '\r' := fun he => h (by simp [he])
    simp only [normCR, if_neg hc]
  | case3 cs ih => exact absurd (by simp) h
  | case4 d cs hd ih => exact absurd (by simp) h
  | case5 c d cs hc ih =>
    have h' : '\r' ∉ d :: cs := fun hm => h (List.mem_cons_of_mem _ hm)
    simp only [normCR, if_neg hc, ih h']

theorem mem_collapseBlanks (l : List Char) (c : Char) (h : c ∈ collapseBlanks l) :
    c ∈ l ∨ c = ' ' := by
  induction l using collapseBlanks.induct with
  | case1 => simp [collapseBlanks] at h
  | case2 x hx =>
    simp [collapseBlanks, hx] at h
    exact Or.inr h
  | case3 x hx =>
    simp [collapseBlanks, hx] at h
    exact Or.inl (by simp [h])
  | case4 x d cs hx hd ih =>
    simp only [collapseBlanks, if_pos hx, if_pos hd] at h
    rcases ih h with h' | h'
    · exact Or.inl (List.mem_cons_of_mem _ h')
    · exact Or.inr h'
  | case5 x d cs hx hd ih =>
    simp only [collapseBlanks, if_pos hx, if_neg hd] at h
    rcases List.mem_cons.mp h with h' | h'
    · exact Or.inr h'
    · rcases ih h' with h'' | h''
      · exact Or.inl (List.mem_cons_of_mem _ h'')
      · exact Or.inr h''
  | case6 x d cs hx ih =>
    simp only [collapseBlanks, if_neg hx] at h
    rcases List.mem_cons.mp h with h' | h'
    · exact Or.inl (by simp [h'])
    · rcases ih h' with h'' | h''
      · exact Or.inl (List.mem_cons_of_mem _ h'')
      · exact Or.inr h''

theorem tab_not_mem_collapseBlanks (l : List Char) : '\t' ∉ collapseBlanks l := by
  induction l using collapseBlanks.induct with
  | case1 => simp [collapseBlanks]
  | case2 x hx => simp [collapseBlanks, hx]
  | case3 x hx =>
    simp [collapseBlanks, hx]
    intro he
    rw [← he] at hx
    exact hx (by decide)
  | case4 x d cs hx hd ih => simpa only [collapseBlanks, if_pos hx, if_pos hd] using ih
  | case5 x d cs hx hd ih =>
    simp only [collapseBlanks, if_pos hx, if_neg hd, List.mem_cons]
    rintro (he | he)
    · exact absurd he (by decide)
    · exact ih he
  | case6 x d cs hx ih =>
    simp only [collapseBlanks, if_neg hx, List.mem_cons]
    rintro (he | he)
    · rw [← he] at hx; exact hx (by decide)
    · exact ih he

theorem collapseBlanks_cons_of_not (c : Char) (cs : List Char) (h : ¬isBlank c = true) :
    collapseBlanks (c :: cs) = c :: collapseBlanks cs := by
  cases cs with
  | nil => simp [collapseBlanks, h]
  | cons d ds => simp only [collapseBlanks, if_neg h]

theorem noDoubleBlank_cons (c : Char) (l : List Char)
    (h : ∀ y, l.head? = some y → ¬(isBlank c = true ∧ isBlank y = true))
    (hl : noDoubleBlank l) : noDoubleBlank (c :: l) := by
  cases l with
  | nil => trivial
  | cons y ys => exact ⟨h y rfl, hl⟩

theorem noDoubleBlank_collapseBlanks (l : List Char) : noDoubleBlank (collapseBlanks l) := by
  induction l using collapseBlanks.induct with
  | case1 => simp [collapseBlanks, noDoubleBlank]
  | case2 x hx => simp [collapseBlanks, hx, noDoubleBlank]
  | case3 x hx => simp [collapseBlanks, hx, noDoubleBlank]
  | case4 x d cs hx hd ih =>
    simpa only [collapseBlanks, if_pos hx, if_pos hd] using ih
  | case5 x d cs hx hd ih =>
    simp only [collapseBlanks, if_pos hx, if_neg hd]
    refine noDoubleBlank_cons _ _ ?_ ih
    intro y hy
    rw [collapseBlanks_cons_of_not d cs hd] at hy
    simp only [List.head?_cons, Option.some.injEq] at hy
    rw [hy] at hd
    exact fun hp => hd hp.2
  | case6 x d cs hx ih =>
    rw [collapseBlanks_cons_of_not x (d :: cs) hx]
    refine noDoubleBlank_cons _ _ ?_ ih
    intro y _
    exact fun hp => hx hp.1

theorem collapseBlanks_eq_self (l : List Char) (hd : noDoubleBlank l) (ht : '\t' ∉ l) :
    collapseBlanks l = l := by
  induction l using collapseBlanks.induct with
  | case1 => simp [collapseBlanks]
  | case2 x hx =>
    have hxs : x = ' ' := by
      rcases Bool.or_eq_true _ _ |>.mp hx with h | h
      · exact of_decide_eq_true h
      · exact absurd (of_decide_eq_true h) (fun he => ht (by simp [he]))
    simp [collapseBlanks, hx, hxs]
  | case3 x hx => simp [collapseBlanks, hx]
  | case4 x d cs hx hd' ih =>
    exact absurd ⟨hx, hd'⟩ hd.1
  | case5 x d cs hx hd' ih =>
    have hxs : x = ' ' := by
      rcases Bool.or_eq_true _ _ |>.mp hx with h | h
      · exact of_decide_eq_true h
      · exact absurd (of_decide_eq_true h) (fun he => ht (by simp [he]))
    simp only [collapseBlanks, if_pos hx, if_neg hd']
    rw [ih hd.2 (fun hm => ht (List.mem_cons_of_mem _ hm)), hxs]
  | case6 x d cs hx ih =>
    rw [collapseBlanks_cons_of_not x (d :: cs) hx,
      ih hd.2 (fun hm => ht (List.mem_cons_of_mem _ hm))]

theorem collapseNL_head? (l : List Char) : (collapseNL l).head? = l.head? := by
  induction l using collapseNL.induct with
  | case1 => rfl
  | case2 c => rfl
  | case3 c d => rfl
  | case4 c d e cs h ih =>
    simp only [collapseNL, if_pos h, ih, List.head?_cons]
    rw [h.1, h.2.1]
  | case5 c d e cs h ih =>
    simp only [collapseNL, if_neg h, List.head?_cons]

theorem mem_collapseNL (l : List Char) (c : Char) (h : c ∈ collapseNL l) : c ∈ l := by
  induction l using collapseNL.induct with
  | case1 => exact h
  | case2 x => exact h
  | case3 x d => exact h
  | case4 x d e cs hx ih =>
    simp only [collapseNL, if_pos hx] at h
    exact List.mem_cons_of_mem _ (ih h)
  | case5 x d e cs hx ih =>
    simp only [collapseNL, if_neg hx] at h
    rcases List.mem_cons.mp h with h' | h'
    · simp [h']
    · exact List.mem_cons_of_mem _ (ih h')

theorem noTripleNL_cons (c : Char) (l : List Char)
    (h : ∀ x y, l.head? = some x → l.tail.head? = some y → ¬(c = '\n' ∧ x = '\n' ∧ y = '\n'))
    (hl : noTripleNL l) : noTripleNL (c :: l) := by
  match l with
  | [] => trivial
  | [x] => trivial
  | x :: y :: ys => exact ⟨h x y rfl rfl, hl⟩

theorem collapseNL_second (d e : Char) (cs : List Char) :
    (collapseNL (d :: e :: cs)).tail.head? = some e ∨ (d = '\n' ∧ e = '\n') := by
  match cs with
  | [] => exact Or.inl rfl
  | f :: cs' =>
    by_cases h : d = '\n' ∧ e = '\n' ∧ f = '\n'
    · exact Or.inr ⟨h.1, h.2.1⟩
    · refine Or.inl ?_
      simp only [collapseNL, if_neg h, List.tail_cons]
      exact collapseNL_head? (e :: f :: cs')

theorem noTripleNL_collapseNL (l : List Char) : noTripleNL (collapseNL l) := by
  induction l using collapseNL.induct with
  | case1 => trivial
  | case2 c => trivial
  | case3 c d => trivial
  | case4 c d e cs h ih => simpa only [collapseNL, if_pos h] using ih
  | case5 c d e cs h ih =>
    simp only [collapseNL, if_neg h]
    refine noTripleNL_cons _ _ ?_ ih
    intro x y hx hy
    rw [collapseNL_head? (d :: e :: cs)] at hx
    simp only [List.head?_cons, Option.some.injEq] at hx
    rintro ⟨hc, hx', hy'⟩
    rcases collapseNL_second d e cs with h2 | h2
    · rw [h2] at hy
      simp only [Option.some.injEq] at hy
      exact h ⟨hc, hx ▸ hx', hy ▸ hy'⟩
    · exact h ⟨hc, h2.1, h2.2⟩

theorem collapseNL_eq_self (l : List Char) (h : noTripleNL l) : collapseNL l = l := by
  induction l using collapseNL.induct with
  | case1 => rfl
  | case2 c => rfl
  | case3 c d => rfl
  | case4 c d e cs hx ih => exact absurd hx h.1
  | case5 c d e cs hx ih =>
    simp only [collapseNL, if_neg hx]
    rw [ih h.2]

theorem noDoubleBlank_tail (c : Char) (l : List Char) (h : noDoubleBlank (c :: l)) :
    noDoubleBlank l := by
  match l with
  | [] => trivial
  | x :: xs => exact h.2

theorem noDoubleBlank_collapseNL (l : List Char) (h : noDoubleBlank l) :
    noDoubleBlank (collapseNL l) := by
  induction l using collapseNL.induct with
  | case1 => trivial
  | case2 c => trivial
  | case3 c d => exact h
  | case4 c d e cs hx ih =>
    simp only [collapseNL, if_pos hx]
    exact ih (noDoubleBlank_tail _ _ h)
  | case5 c d e cs hx ih =>
    simp only [collapseNL, if_neg hx]
    refine noDoubleBlank_cons _ _ ?_ (ih (noDoubleBlank_tail _ _ h))
    intro y hy
    rw [collapseNL_head? (d :: e :: cs)] at hy
    simp only [List.head?_cons, Option.some.injEq] at hy
    rw [← hy]
    exact h.1

theorem noTripleNL_tail (c : Char) (l : List Char) (h : noTripleNL (c :: l)) :
    noTripleNL l := by
  match l with
  | [] => trivial
  | [d] => trivial
  | d :: e :: xs => exact h.2

theorem noDoubleBlank_of_append (l m : List Char) (h : noDoubleBlank (l ++ m)) :
    noDoubleBlank l := by
  induction l with
  | nil => trivial
  | cons c cs ih =>
    cases cs with
    | nil => trivial
    | cons d cs' => exact ⟨h.1, ih h.2⟩

theorem noTripleNL_of_append (l m : List Char) (h : noTripleNL (l ++ m)) :
    noTripleNL l := by
  induction l with
  | nil => trivial
  | cons c cs ih =>
    match cs, h, ih with
    | [], _, _ => trivial
    | [d], _, _ => trivial
    | d :: e :: cs', h, ih => exact ⟨h.1, ih h.2⟩

theorem noDoubleBlank_dropWhile (p : Char → Bool) (l : List Char) (h : noDoubleBlank l) :
    noDoubleBlank (l.dropWhile p) := by
  induction l with
  | nil => trivial
  | cons c cs ih =>
    rw [List.dropWhile_cons]
    by_cases hp : p c = true
    · rw [if_pos hp]; exact ih (noDoubleBlank_tail _ _ h)
    · rw [if_neg hp]; exact h

theorem noTripleNL_dropWhile (p : Char → Bool) (l : List Char) (h : noTripleNL l) :
    noTripleNL (l.dropWhile p) := by
  induction l with
  | nil => trivial
  | cons c cs ih =>
    rw [List.dropWhile_cons]
    by_cases hp : p c = true
    · rw [if_pos hp]; exact ih (noTripleNL_tail _ _ h)
    · rw [if_neg hp]; exact h

theorem dropTrailingWs_cons (c : Char) (cs : List Char) :
    dropTrailingWs (c :: cs) =
      if dropTrailingWs cs = [] then (if isSpaceCh c then [] else [c])
      else c :: dropTrailingWs cs := by
  cases hrec : dropTrailingWs cs with
  | nil => simp [dropTrailingWs, hrec]
  | cons r rs => simp [dropTrailingWs, hrec]

theorem mem_dropTrailingWs (l : List Char) (c : Char) (h : c ∈ dropTrailingWs l) :
    c ∈ l := by
  induction l with
  | nil => exact h
  | cons x cs ih =>
    rw [dropTrailingWs_cons] at h
    by_cases h0 : dropTrailingWs cs = []
    · rw [if_pos h0] at h
      by_cases hs : isSpaceCh x = true
      · rw [if_pos hs] at h; exact absurd h (List.not_mem_nil c)
      · rw [if_neg hs] at h
        simp only [List.mem_singleton] at h
        simp [h]
    · rw [if_neg h0] at h
      rcases List.mem_cons.mp h with h' | h'
      · simp [h']
      · exact List.mem_cons_of_mem _ (ih h')

theorem dropTrailingWs_head? (l : List Char) (h : dropTrailingWs l ≠ []) :
    (dropTrailingWs l).head? = l.head? := by
  cases l with
  | nil => exact absurd rfl h
  | cons x cs =>
    rw [dropTrailingWs_cons] at h ⊢
    by_cases h0 : dropTrailingWs cs = []
    · rw [if_pos h0] at h ⊢
      by_cases hs : isSpaceCh x = true
      · rw [if_pos hs] at h; exact absurd rfl h
      · rw [if_neg hs]; rfl
    · rw [if_neg h0]; rfl

theorem dropTrailingWs_append_eq (l : List Char) : ∃ m, l = dropTrailingWs l ++ m := by
  induction l with
  | nil => exact ⟨[], rfl⟩
  | cons x cs ih =>
    rw [dropTrailingWs_cons]
    by_cases h0 : dropTrailingWs cs = []
    · rw [if_pos h0]
      by_cases hs : isSpaceCh x = true
      · rw [if_pos hs]; exact ⟨x :: cs, rfl⟩
      · rw [if_neg hs]; exact ⟨cs, rfl⟩
    · rw [if_neg h0]
      obtain ⟨m, hm⟩ := ih
      exact ⟨m, by rw [List.cons_append, ← hm]⟩

theorem dropTrailingWs_idem (l : List Char) :
    dropTrailingWs (dropTrailingWs l) = dropTrailingWs l := by
  induction l with
  | nil => rfl
  | cons x cs ih =>
    rw [dropTrailingWs_cons]
    by_cases h0 : dropTrailingWs cs = []
    · rw [if_pos h0]
      by_cases hs : isSpaceCh x = true
      · rw [if_pos hs]; rfl
      · rw [if_neg hs]
        rw [dropTrailingWs_cons]
        simp [hs, dropTrailingWs]
    · rw [if_neg h0, dropTrailingWs_cons, ih, if_neg h0]

theorem dropWhile_head?_false (p : Char → Bool) (l : List Char) (x : Char)
    (h : (l.dropWhile p).head? = some x) : p x = false := by
  induction l with
  | nil => simp at h
  | cons c cs ih =>
    rw [List.dropWhile_cons] at h
    by_cases hp : p c = true
    · rw [if_pos hp] at h; exact ih h
    · rw [if_neg hp] at h
      simp only [List.head?_cons, Option.some.injEq] at h
      rw [← h]
      exact Bool.not_eq_true _ |>.mp hp

theorem dropWhile_eq_self_of_head (p : Char → Bool) (l : List Char)
    (h : ∀ x, l.head? = some x → p x = false) : l.dropWhile p = l := by
  cases l with
  | nil => rfl
  | cons c cs =>
    have hc := h c rfl
    rw [List.dropWhile_cons]
    simp [hc]

theorem mem_pyStrip (l : List Char) (c : Char) (h : c ∈ pyStrip l) : c ∈ l :=
  (List.dropWhile_sublist isSpaceCh).subset (mem_dropTrailingWs _ _ h)

theorem pyStrip_noDoubleBlank (l : List Char) (h : noDoubleBlank l) :
    noDoubleBlank (pyStrip l) := by
  have h1 := noDoubleBlank_dropWhile isSpaceCh l h
  obtain ⟨m, hm⟩ := dropTrailingWs_append_eq (l.dropWhile isSpaceCh)
  exact noDoubleBlank_of_append _ m (hm ▸ h1)

theorem pyStrip_noTripleNL (l : List Char) (h : noTripleNL l) :
    noTripleNL (pyStrip l) := by
  have h1 := noTripleNL_dropWhile isSpaceCh l h
  obtain ⟨m, hm⟩ := dropTrailingWs_append_eq (l.dropWhile isSpaceCh)
  exact noTripleNL_of_append _ m (hm ▸ h1)

theorem pyStrip_idem (l : List Char) : pyStrip (pyStrip l) = pyStrip l := by
  unfold pyStrip
  have hdw : (dropTrailingWs (l.dropWhile isSpaceCh)).dropWhile isSpaceCh
      = dropTrailingWs (l.dropWhile isSpaceCh) := by
    apply dropWhile_eq_self_of_head
    intro x hx
    by_cases h0 : dropTrailingWs (l.dropWhile isSpaceCh) = []
    · rw [h0] at hx; simp at hx
    · rw [dropTrailingWs_head? _ h0] at hx
      exact dropWhile_head?_false isSpaceCh l x hx
  rw [hdw, dropTrailingWs_idem]

theorem length_dropTrailingWs_le (l : List Char) :
    (dropTrailingWs l).length ≤ l.length := by
  obtain ⟨m, hm⟩ := dropTrailingWs_append_eq l
  conv_rhs => rw [hm]
  simp [List.length_append]

theorem length_pyStrip_le (l : List Char) : (pyStrip l).length ≤ l.length :=
  le_trans (length_dropTrailingWs_le _) (List.dropWhile_sublist isSpaceCh).length_le

/-! ## Claim theorems for the excerpt engine -/

/-- Claim C9: the whitespace normalization applied before excerpting is
idempotent — normalizing an already-normalized string changes nothing. -/
theorem normalizeExcerptText_idempotent (s : List Char) :
    normalizeExcerptText (normalizeExcerptText s) = normalizeExcerptText s := by
  set Y := collapseNL (collapseBlanks (normCR s)) with hY
  have hCR : '\r' ∉ pyStrip Y := by
    intro hm
    have h1 := mem_pyStrip _ _ hm
    have h2 := mem_collapseNL _ _ h1
    rcases mem_collapseBlanks _ _ h2 with h3 | h3
    · exact cr_not_mem_normCR s h3
    · exact absurd h3 (by decide)
  have hTab : '\t' ∉ pyStrip Y := by
    intro hm
    have h1 := mem_pyStrip _ _ hm
    exact tab_not_mem_collapseBlanks _ (mem_collapseNL _ _ h1)
  have hND : noDoubleBlank (pyStrip Y) :=
    pyStrip_noDoubleBlank _ (noDoubleBlank_collapseNL _ (noDoubleBlank_collapseBlanks _))
  have hNT : noTripleNL (pyStrip Y) :=
    pyStrip_noTripleNL _ (noTripleNL_collapseNL _)
  calc normalizeExcerptText (normalizeExcerptText s)
      = pyStrip (collapseNL (collapseBlanks (normCR (pyStrip Y)))) := rfl
    _ = pyStrip (collapseNL (collapseBlanks (pyStrip Y))) := by
        rw [normCR_eq_self _ hCR]
    _ = pyStrip (collapseNL (pyStrip Y)) := by
        rw [collapseBlanks_eq_self _ hND hTab]
    _ = pyStrip (pyStrip Y) := by rw [collapseNL_eq_self _ hNT]
    _ = pyStrip Y := pyStrip_idem Y
    _ = normalizeExcerptText s := rfl

/-- Claim C10: a character budget of zero or less makes the excerpt function
return the empty string, whatever the transcript. -/
theorem excerptTranscript_nonpos (text : List Char) (maxChars : Int)
    (h : maxChars ≤ 0) : excerptTranscript text maxChars = [] := by
  unfold excerptTranscript
  rw [if_pos h]

/-- Witness for C10 at a concrete input. -/
theorem excerptTranscript_nonpos_witness :
    (0 : Int) ≤ 0 ∧ excerptTranscript ['a'] 0 = [] :=
  ⟨le_refl 0, excerptTranscript_nonpos ['a'] 0 (le_refl 0)⟩

/-- Counterexample to claim C1 as stated: with budget 11 and a 20-character
transcript the excerpt has 70 characters, exceeding budget plus the fixed
10-character elision-marker overhead (the code's part size is
`max(200, budget // 3)`, never capped by one third of the budget). -/
theorem excerptTranscript_bound_counterexample :
    ¬((excerptTranscript (List.replicate 20 'a') 11).length ≤ 11 + 10) := by
  decide

/-- Unfolding of `_excerpt_transcript` in its three-way-splitting branch. -/
theorem excerptTranscript_split_eq (text : List Char) (maxChars : Int)
    (h1 : 0 < maxChars)
    (h2 : ¬ ((normalizeExcerptText text).length : Int) ≤ maxChars)
    (h3 : 10 < maxChars) :
    excerptTranscript text maxChars =
      pyStrip (pyStrip ((normalizeExcerptText text).take (excerptPart maxChars).toNat)
        ++ excerptSep
        ++ pyStrip (((normalizeExcerptText text).drop
             (max 0 (((normalizeExcerptText text).length : Int) / 2
               - excerptPart maxChars / 2)).toNat).take (excerptPart maxChars).toNat)
        ++ excerptSep
        ++ pyStrip ((normalizeExcerptText text).drop
             ((normalizeExcerptText text).length - (excerptPart maxChars).toNat))) := by
  simp only [excerptTranscript]
  rw [if_neg (not_le.mpr h1), if_neg h2, if_neg (by omega : ¬ maxChars - 10 ≤ 0)]

/-- Claim C1, amended: the excerpt length is bounded by
`max(budget, 3 * 200 + 10)` rather than by the budget itself (for budgets of
at least 610 the original budget bound does hold); when the normalized text
fits in the budget, the excerpt is exactly the normalized text; the three-way
split uses a window size of exactly `max(200, (budget - 10) / 3)`, which is at
least 200, and is at most one third of budget-minus-separator-overhead only
once the budget is at least 610. -/
theorem excerptTranscript_bounded (text : List Char) (maxChars : Int)
    (h : 0 < maxChars) :
    ((excerptTranscript text maxChars).length : Int) ≤ max maxChars 610
    ∧ (((normalizeExcerptText text).length : Int) ≤ maxChars →
        excerptTranscript text maxChars = normalizeExcerptText text)
    ∧ 200 ≤ excerptPart maxChars
    ∧ (610 ≤ maxChars → excerptPart maxChars = (maxChars - 10) / 3) := by
  refine ⟨?_, ?_, le_max_left _ _, ?_⟩
  · by_cases hshort : ((normalizeExcerptText text).length : Int) ≤ maxChars
    · have heq : excerptTranscript text maxChars = normalizeExcerptText text := by
        simp only [excerptTranscript]
        rw [if_neg (not_le.mpr h), if_pos hshort]
      rw [heq]
      exact le_trans hshort (le_max_left _ _)
    · by_cases hbud : maxChars - 10 ≤ 0
      · have heq : excerptTranscript text maxChars
            = pyStrip ((normalizeExcerptText text).take maxChars.toNat) := by
          simp only [excerptTranscript]
          rw [if_neg (not_le.mpr h), if_neg hshort, if_pos hbud]
        rw [heq]
        have hp := length_pyStrip_le ((normalizeExcerptText text).take maxChars.toNat)
        have hq : ((normalizeExcerptText text).take maxChars.toNat).length ≤ maxChars.toNat :=
          List.length_take_le _ _
        have hr : maxChars ≤ max maxChars 610 := le_max_left _ _
        omega
      · rw [excerptTranscript_split_eq text maxChars h hshort (by omega)]
        have h3part : 3 * excerptPart maxChars + 10 ≤ max maxChars 610 := by
          rcases max_cases (200 : Int) ((maxChars - 10) / 3) with ⟨hm, _⟩ | ⟨hm, _⟩ <;>
            rw [excerptPart, hm]
          · exact le_trans (by norm_num) (le_max_right _ _)
          · exact le_trans (by omega) (le_max_left _ _)
        refine le_trans ?_ h3part
        set t := normalizeExcerptText text with ht
        set part := excerptPart maxChars with hpart
        have hp200 : (200 : Int) ≤ part := le_max_left _ _
        have hptn : (part.toNat : Int) = part := Int.toNat_of_nonneg (by omega)
        have hA := length_pyStrip_le (t.take part.toNat)
        have hA2 : (t.take part.toNat).length ≤ part.toNat := List.length_take_le _ _
        have hB := length_pyStrip_le
          ((t.drop (max 0 ((t.length : Int) / 2 - part / 2)).toNat).take part.toNat)
        have hB2 : ((t.drop (max 0 ((t.length : Int) / 2 - part / 2)).toNat).take part.toNat).length
            ≤ part.toNat := List.length_take_le _ _
        have hC := length_pyStrip_le (t.drop (t.length - part.toNat))
        have hC2 : (t.drop (t.length - part.toNat)).length ≤ part.toNat := by
          rw [List.length_drop]
          omega
        have houter := length_pyStrip_le
          (pyStrip (t.take part.toNat) ++ excerptSep
            ++ pyStrip ((t.drop (max 0 ((t.length : Int) / 2 - part / 2)).toNat).take part.toNat)
            ++ excerptSep ++ pyStrip (t.drop (t.length - part.toNat)))
        simp only [List.length_append] at houter
        have hsep : excerptSep.length = 5 := rfl
        omega
  · intro hshort
    simp only [excerptTranscript]
    rw [if_neg (not_le.mpr h), if_pos hshort]
  · intro h610
    rw [excerptPart]
    have h200 : (200 : Int) ≤ (maxChars - 10) / 3 := by omega
    exact max_eq_right h200

/-- Witness for the amended C1 at a concrete input. -/
theorem excerptTranscript_bounded_witness :
    (0 : Int) < 5
    ∧ (((excerptTranscript ['h', 'i'] 5).length : Int) ≤ max 5 610
    ∧ (((normalizeExcerptText ['h', 'i']).length : Int) ≤ 5 →
        excerptTranscript ['h', 'i'] 5 = normalizeExcerptText ['h', 'i'])
    ∧ 200 ≤ excerptPart 5
    ∧ (610 ≤ (5 : Int) → excerptPart 5 = (5 - 10) / 3)) :=
  ⟨by norm_num, excerptTranscript_bounded ['h', 'i'] 5 (by norm_num)⟩

/-! ## Claim theorems for the episode store -/

theorem pyWordCount_eq_length (s : String) :
    pyWordCount s = (pySplit s.data).length := by
  unfold pyWordCount
  by_cases hs : s = ""
  · rw [if_pos hs, hs]; rfl
  · rw [if_neg hs]

/-- Claim C4: an upsert for an existing id updates only `transcript`,
`transcriptSource`, `audioPath`, `scrapedAt` and `wordCount`; the originally
stored `feedName`, `feedUrl`, `title`, `publishedAt` and `audioUrl` are
unchanged. -/
theorem storeEpisode_conflict_frame (st : Store) (old : EpisodeRow)
    (episodeId feedName feedUrl title : String)
    (publishedAt audioUrl audioPath : Option String)
    (transcript transcriptSource now : String)
    (hold : st episodeId = some old) :
    storeEpisode st episodeId feedName feedUrl title publishedAt audioUrl audioPath
        transcript transcriptSource now episodeId
      = some { old with
          transcript := transcript
          transcriptSource := transcriptSource
          audioPath := audioPath
          scrapedAt := now
          wordCount := pyWordCount transcript } := by
  simp only [storeEpisode, if_pos rfl, hold]

/-- Witness for C4 at a concrete conflicting upsert. -/
theorem storeEpisode_conflict_frame_witness :
    demoStore "ep-1" = some demoRow
    ∧ storeEpisode demoStore "ep-1" "Feed Z" "http://z" "Title Z" (some "1999-01-01")
        (some "http://z.mp3") (some "/cache/z.mp3") "fresh new transcript text"
        "whisper" "t9" "ep-1"
      = some { demoRow with
          transcript := "fresh new transcript text"
          transcriptSource := "whisper"
          audioPath := some "/cache/z.mp3"
          scrapedAt := "t9"
          wordCount := pyWordCount "fresh new transcript text" } :=
  ⟨by decide, storeEpisode_conflict_frame demoStore demoRow "ep-1" "Feed Z" "http://z"
    "Title Z" (some "1999-01-01") (some "http://z.mp3") (some "/cache/z.mp3")
    "fresh new transcript text" "whisper" "t9" (by decide)⟩

/-- Claim C5: in every store state reachable by upserts, each row's
`wordCount` equals the whitespace-token count of its current transcript, and
is 0 when the transcript is empty. -/
theorem reachable_wordCount_consistent (st : Store) (h : ReachableStore st) :
    ∀ (i : String) (r : EpisodeRow), st i = some r →
      r.wordCount = (pySplit r.transcript.data).length
      ∧ (r.transcript = "" → r.wordCount = 0) := by
  induction h with
  | empty => intro i r hr; cases hr
  | step st' episodeId fn fu ti pa au ap t src now hst ih =>
    intro i r hr
    simp only [storeEpisode] at hr
    by_cases hi : i = episodeId
    · rw [if_pos hi] at hr
      cases hold : st' episodeId with
      | some old =>
        rw [hold] at hr
        injection hr with hr
        rw [← hr]
        refine ⟨pyWordCount_eq_length t, fun ht => ?_⟩
        show pyWordCount t = 0
        rw [pyWordCount, if_pos ht]
      | none =>
        rw [hold] at hr
        injection hr with hr
        rw [← hr]
        refine ⟨pyWordCount_eq_length t, fun ht => ?_⟩
        show pyWordCount t = 0
        rw [pyWordCount, if_pos ht]
    · rw [if_neg hi] at hr
      exact ih i r hr

/-- Witness for C5 on a concrete reachable store. -/
theorem reachable_wordCount_consistent_witness :
    demoRow.wordCount = (pySplit demoRow.transcript.data).length
    ∧ (demoRow.transcript = "" → demoRow.wordCount = 0) :=
  reachable_wordCount_consistent demoStore
    (ReachableStore.step emptyStore "ep-1" "Feed A" "http://feed" "Title One"
      (some "2026-01-01") (some "http://a.mp3") none "hello brave world"
      "podcast2.0" "2026-01-02T00:00:00" ReachableStore.empty)
    "ep-1" demoRow (by decide)

theorem acquireTranscript_some_spec (inp : ScrapeInputs) (t src : String)
    (ap : Option String) (h : acquireTranscript inp = some (t, src, ap)) :
    t ≠ "" ∧ src ≠ "" := by
  simp only [acquireTranscript] at h
  by_cases hf : ((if inp.transcriptUrl.isSome then inp.fetchResult else none).getD "") ≠ ""
  · rw [if_pos hf] at h
    simp only [Option.some.injEq, Prod.mk.injEq] at h
    obtain ⟨h1, h2, h3⟩ := h
    subst h1; subst h2
    exact ⟨hf, by decide⟩
  · rw [if_neg hf] at h
    by_cases ha : inp.audioUrl.isSome = true
    · rw [if_pos ha] at h
      split at h
      · cases h
      · rename_i path tr heq
        by_cases htr : tr ≠ ""
        · rw [if_pos htr] at h
          simp only [Option.some.injEq, Prod.mk.injEq] at h
          obtain ⟨h1, h2, h3⟩ := h
          subst h1; subst h2
          exact ⟨htr, by decide⟩
        · rw [if_neg htr] at h; cases h
    · rw [if_neg ha] at h; cases h

/-- Claim C8: in every store state produced by the pipeline's persistence
operations, every row has a non-empty transcript (episodes with no acquired
transcript are never persisted), and `transcriptSource` is set exactly when
the transcript is non-empty. -/
theorem pipeline_source_iff_transcript (st : Store) (h : PipelineReachable st) :
    ∀ (i : String) (r : EpisodeRow), st i = some r →
      r.transcript ≠ "" ∧ (r.transcriptSource ≠ "" ↔ r.transcript ≠ "") := by
  induction h with
  | empty => intro i r hr; cases hr
  | step st' episodeId fn fu ti pa inp now hst ih =>
    intro i r hr
    simp only [scrapeEpisode] at hr
    by_cases hex : episodeExists st' episodeId = true
    · rw [if_pos hex] at hr; exact ih i r hr
    · rw [if_neg hex] at hr
      cases hacq : acquireTranscript inp with
      | none => rw [hacq] at hr; exact ih i r hr
      | some tup =>
        obtain ⟨t, src, ap⟩ := tup
        rw [hacq] at hr
        simp only [storeEpisode] at hr
        by_cases hi : i = episodeId
        · rw [if_pos hi] at hr
          have hnone : st' episodeId = none := by
            unfold episodeExists at hex
            cases hsome : st' episodeId with
            | none => rfl
            | some v => rw [hsome] at hex; exact absurd rfl hex
          rw [hnone] at hr
          injection hr with hr
          obtain ⟨ht, hsrc⟩ := acquireTranscript_some_spec inp t src ap hacq
          rw [← hr]
          exact ⟨ht, Iff.intro (fun _ => ht) (fun _ => hsrc)⟩
        · rw [if_neg hi] at hr
          exact ih i r hr

/-- Witness for C8 on a concrete pipeline-produced store. -/
theorem pipeline_source_iff_transcript_witness :
    demoPipelineRow.transcript ≠ ""
    ∧ (demoPipelineRow.transcriptSource ≠ "" ↔ demoPipelineRow.transcript ≠ "") :=
  pipeline_source_iff_transcript demoPipelineStore
    (PipelineReachable.step emptyStore "ep-2" "Feed B" "http://feedb" "Title Two"
      none demoInputs "now0" PipelineReachable.empty)
    "ep-2" demoPipelineRow (by decide)

/-! ## Lemmas about the per-feed counter dict -/

theorem dictLookup_eq_some_mem (m : List (String × Nat)) (k : String) (v : Nat)
    (h : dictLookup m k = some v) : (k, v) ∈ m := by
  induction m with
  | nil => cases h
  | cons kv rest ih =>
    obtain ⟨k', v'⟩ := kv
    simp only [dictLookup] at h
    by_cases hk : k' = k
    · rw [if_pos hk] at h
      injection h with h
      simp [hk, h]
    · rw [if_neg hk] at h
      exact List.mem_cons_of_mem _ (ih h)

theorem mem_dictLookup_of_nodup (m : List (String × Nat))
    (hn : (m.map Prod.fst).Nodup) (k : String) (v : Nat) (h : (k, v) ∈ m) :
    dictLookup m k = some v := by
  induction m with
  | nil => cases h
  | cons kv rest ih =>
    obtain ⟨k', v'⟩ := kv
    simp only [List.map_cons, List.nodup_cons] at hn
    rcases List.mem_cons.mp h with h' | h'
    · injection h' with h1 h2
      simp only [dictLookup]
      rw [if_pos h1.symm, h2]
    · simp only [dictLookup]
      by_cases hk : k' = k
      · exfalso
        apply hn.1
        rw [hk]
        exact List.mem_map_of_mem Prod.fst h'
      · rw [if_neg hk]
        exact ih hn.2 h'

theorem dictLookup_append_zero (m : List (String × Nat)) (k k' : String) :
    (dictLookup (m ++ [(k, 0)]) k').getD 0 = (dictLookup m k').getD 0 := by
  induction m with
  | nil =>
    simp only [List.nil_append, dictLookup]
    by_cases hk : k = k'
    · rw [if_pos hk]; rfl
    · rw [if_neg hk]
  | cons kv rest ih =>
    obtain ⟨k0, v0⟩ := kv
    simp only [List.cons_append, dictLookup]
    by_cases hk : k0 = k'
    · rw [if_pos hk, if_pos hk]
    · rw [if_neg hk, if_neg hk]
      exact ih

theorem dictGetIns_fst (m : List (String × Nat)) (k : String) :
    (dictGetIns m k).1 = (dictLookup m k).getD 0 := by
  unfold dictGetIns
  cases h : dictLookup m k with
  | none => rfl
  | some v => rfl

theorem dictGetIns_lookup (m : List (String × Nat)) (k k' : String) :
    (dictLookup (dictGetIns m k).2 k').getD 0 = (dictLookup m k').getD 0 := by
  unfold dictGetIns
  cases h : dictLookup m k with
  | some v => rfl
  | none => exact dictLookup_append_zero m k k'

theorem dictLookup_none_not_key (m : List (String × Nat)) (k : String)
    (h : dictLookup m k = none) : k ∉ m.map Prod.fst := by
  induction m with
  | nil => simp
  | cons kv rest ih =>
    obtain ⟨k0, v0⟩ := kv
    simp only [dictLookup] at h
    by_cases hk : k0 = k
    · rw [if_pos hk] at h; cases h
    · rw [if_neg hk] at h
      simp only [List.map_cons, List.mem_cons]
      rintro (he | he)
      · exact hk he.symm
      · exact ih h he

theorem dictGetIns_nodup (m : List (String × Nat)) (k : String)
    (h : (m.map Prod.fst).Nodup) : (((dictGetIns m k).2).map Prod.fst).Nodup := by
  unfold dictGetIns
  cases hl : dictLookup m k with
  | some v => exact h
  | none =>
    simp only [List.map_append]
    rw [List.nodup_append]
    refine ⟨h, List.nodup_singleton _, ?_⟩
    intro a ha hb
    simp only [List.map_cons, List.map_nil, List.mem_singleton] at hb
    rw [hb] at ha
    exact dictLookup_none_not_key m k hl ha

theorem dictGetIns_keys_sub (m : List (String × Nat)) (k a : String)
    (h : a ∈ m.map Prod.fst) : a ∈ ((dictGetIns m k).2).map Prod.fst := by
  unfold dictGetIns
  cases hl : dictLookup m k with
  | some v => exact h
  | none =>
    simp only [List.map_append, List.mem_append]
    exact Or.inl h

theorem dictSet_lookup_self (m : List (String × Nat)) (k : String) (v : Nat) :
    dictLookup (dictSet m k v) k = some v := by
  induction m with
  | nil => simp [dictSet, dictLookup]
  | cons kv rest ih =>
    obtain ⟨k0, v0⟩ := kv
    simp only [dictSet]
    by_cases hk : k0 = k
    · rw [if_pos hk]
      simp [dictLookup]
    · rw [if_neg hk]
      simp only [dictLookup]
      rw [if_neg hk]
      exact ih

theorem dictSet_lookup_other (m : List (String × Nat)) (k : String) (v : Nat)
    (k' : String) (h : k' ≠ k) : dictLookup (dictSet m k v) k' = dictLookup m k' := by
  induction m with
  | nil =>
    simp only [dictSet, dictLookup]
    rw [if_neg (fun he => h he.symm)]
  | cons kv rest ih =>
    obtain ⟨k0, v0⟩ := kv
    simp only [dictSet]
    by_cases hk : k0 = k
    · rw [if_pos hk]
      simp only [dictLookup]
      have hne : ¬k0 = k' := by rw [hk]; exact fun he => h he.symm
      rw [if_neg (fun he => h he.symm), if_neg hne]
    · rw [if_neg hk]
      simp only [dictLookup]
      by_cases hk' : k0 = k'
      · rw [if_pos hk', if_pos hk']
      · rw [if_neg hk', if_neg hk']
        exact ih

theorem dictSet_keys_cases (m : List (String × Nat)) (k : String) (v : Nat)
    (a : String) (h : a ∈ (dictSet m k v).map Prod.fst) :
    a = k ∨ a ∈ m.map Prod.fst := by
  induction m with
  | nil =>
    simp only [dictSet, List.map_cons, List.map_nil, List.mem_singleton] at h
    exact Or.inl h
  | cons kv rest ih =>
    obtain ⟨k0, v0⟩ := kv
    simp only [dictSet] at h
    by_cases hk : k0 = k
    · rw [if_pos hk] at h
      simp only [List.map_cons, List.mem_cons] at h
      rcases h with h' | h'
      · exact Or.inl h'
      · exact Or.inr (by simp only [List.map_cons, List.mem_cons]; exact Or.inr h')
    · rw [if_neg hk] at h
      simp only [List.map_cons, List.mem_cons] at h
      rcases h with h' | h'
      · exact Or.inr (by simp [h'])
      · rcases ih h' with h'' | h''
        · exact Or.inl h''
        · exact Or.inr (by simp only [List.map_cons, List.mem_cons]; exact Or.inr h'')

theorem dictSet_keys_sup (m : List (String × Nat)) (k : String) (v : Nat)
    (a : String) (h : a ∈ m.map Prod.fst) : a ∈ (dictSet m k v).map Prod.fst := by
  induction m with
  | nil => cases h
  | cons kv rest ih =>
    obtain ⟨k0, v0⟩ := kv
    simp only [List.map_cons, List.mem_cons] at h
    simp only [dictSet]
    by_cases hk : k0 = k
    · rw [if_pos hk]
      simp only [List.map_cons, List.mem_cons]
      rcases h with h' | h'
      · exact Or.inl (hk ▸ h')
      · exact Or.inr h'
    · rw [if_neg hk]
      simp only [List.map_cons, List.mem_cons]
      rcases h with h' | h'
      · exact Or.inl h'
      · exact Or.inr (ih h')

theorem dictSet_key_self (m : List (String × Nat)) (k : String) (v : Nat) :
    k ∈ (dictSet m k v).map Prod.fst :=
  List.mem_map_of_mem Prod.fst
    (dictLookup_eq_some_mem _ _ _ (dictSet_lookup_self m k v))

theorem dictSet_nodup (m : List (String × Nat)) (k : String) (v : Nat)
    (h : (m.map Prod.fst).Nodup) : ((dictSet m k v).map Prod.fst).Nodup := by
  induction m with
  | nil => simp [dictSet]
  | cons kv rest ih =>
    obtain ⟨k0, v0⟩ := kv
    simp only [List.map_cons, List.nodup_cons] at h
    simp only [dictSet]
    by_cases hk : k0 = k
    · rw [if_pos hk]
      simp only [List.map_cons, List.nodup_cons]
      exact ⟨hk ▸ h.1, h.2⟩
    · rw [if_neg hk]
      simp only [List.map_cons, List.nodup_cons]
      refine ⟨?_, ih h.2⟩
      intro hmem
      rcases dictSet_keys_cases rest k v k0 hmem with h' | h'
      · exact hk h'
      · exact h.1 h'

theorem filter_singleton_feed (x : SelectedEpisode) (k : String) :
    (([x] : List SelectedEpisode).filter (fun e => e.feedName = k)).length
      = if x.feedName = k then 1 else 0 := by
  by_cases h : x.feedName = k <;> simp [List.filter, h]

/-- Induction workhorse for the selection loop: the per-feed counter dict has
unique keys, counts exactly the selected episodes of each feed, and contains
every selected feed; the selection length respects the global cap and, when
positive, the per-feed cap. -/
theorem selectLoop_spec (maxT maxP exC : Int) (eps : List FetchedEpisode) :
    ∀ (sel : List SelectedEpisode) (counts : List (String × Nat)),
      ((counts.map Prod.fst).Nodup) →
      (∀ k, (dictLookup counts k).getD 0
          = (sel.filter (fun e => e.feedName = k)).length) →
      (∀ e ∈ sel, e.feedName ∈ counts.map Prod.fst) →
      (0 < maxP → ∀ f, ((sel.filter (fun e => e.feedName = f)).length : Int) ≤ maxP) →
      (((selectLoop eps maxT maxP exC sel counts).2.map Prod.fst).Nodup)
      ∧ (∀ k, (dictLookup (selectLoop eps maxT maxP exC sel counts).2 k).getD 0
          = ((selectLoop eps maxT maxP exC sel counts).1.filter
              (fun e => e.feedName = k)).length)
      ∧ (∀ e ∈ (selectLoop eps maxT maxP exC sel counts).1,
          e.feedName ∈ (selectLoop eps maxT maxP exC sel counts).2.map Prod.fst)
      ∧ (((selectLoop eps maxT maxP exC sel counts).1.length : Int)
          ≤ max (sel.length : Int) maxT)
      ∧ (0 < maxP → ∀ f,
          (((selectLoop eps maxT maxP exC sel counts).1.filter
              (fun e => e.feedName = f)).length : Int) ≤ maxP) := by
  induction eps with
  | nil =>
    intro sel counts hn hinv hmem hcap
    exact ⟨hn, hinv, hmem, le_max_left _ _, hcap⟩
  | cons ep rest ih =>
    intro sel counts hn hinv hmem hcap
    simp only [selectLoop]
    by_cases hbreak : (sel.length : Int) ≥ maxT
    · rw [if_pos hbreak]
      exact ⟨hn, hinv, hmem, le_max_left _ _, hcap⟩
    · rw [if_neg hbreak]
      by_cases hblank : pyStrip (ep.transcript.getD "").data = []
      · rw [if_pos hblank]
        exact ih sel counts hn hinv hmem hcap
      · rw [if_neg hblank]
        have hxfeed : (mkSelected ep exC).feedName = ep.feedName.getD "" := rfl
        by_cases hmp : 0 < maxP
        · rw [if_pos hmp]
          by_cases hskip : ((dictGetIns counts (ep.feedName.getD "")).1 : Int) ≥ maxP
          · rw [if_pos hskip]
            refine ih sel (dictGetIns counts (ep.feedName.getD "")).2
              (dictGetIns_nodup _ _ hn) ?_ ?_ hcap
            · intro k
              rw [dictGetIns_lookup]
              exact hinv k
            · intro e he
              exact dictGetIns_keys_sub _ _ _ (hmem e he)
          · rw [if_neg hskip]
            have hn' : (((dictIncr (dictGetIns counts (ep.feedName.getD "")).2
                (ep.feedName.getD "")).map Prod.fst).Nodup) :=
              dictSet_nodup _ _ _ (dictGetIns_nodup counts (ep.feedName.getD "") hn)
            have hinv' : ∀ k,
                (dictLookup (dictIncr (dictGetIns counts (ep.feedName.getD "")).2
                    (ep.feedName.getD "")) k).getD 0
                  = ((sel ++ [mkSelected ep exC]).filter
                      (fun e => e.feedName = k)).length := by
              intro k
              rw [List.filter_append, List.length_append, filter_singleton_feed, hxfeed]
              by_cases hk : ep.feedName.getD "" = k
              · rw [if_pos hk, ← hk]
                rw [dictIncr, dictSet_lookup_self]
                simp only [Option.getD_some]
                rw [dictGetIns_lookup, hinv (ep.feedName.getD "")]
              · rw [if_neg hk]
                rw [dictIncr, dictSet_lookup_other _ _ _ _ (fun he => hk he.symm),
                  dictGetIns_lookup, hinv k]
                omega
            have hmem' : ∀ e ∈ sel ++ [mkSelected ep exC],
                e.feedName ∈ (dictIncr (dictGetIns counts (ep.feedName.getD "")).2
                    (ep.feedName.getD "")).map Prod.fst := by
              intro e he
              rcases List.mem_append.mp he with h' | h'
              · exact dictSet_keys_sup _ _ _ _ (dictGetIns_keys_sub _ _ _ (hmem e h'))
              · have heq : e = mkSelected ep exC := by simpa using h'
                rw [heq, hxfeed]
                exact dictSet_key_self _ _ _
            have hcap' : 0 < maxP → ∀ f,
                (((sel ++ [mkSelected ep exC]).filter
                    (fun e => e.feedName = f)).length : Int) ≤ maxP := by
              intro _ f
              rw [List.filter_append, List.length_append, filter_singleton_feed, hxfeed]
              by_cases hf : ep.feedName.getD "" = f
              · rw [if_pos hf]
                have h1 : ((dictGetIns counts (ep.feedName.getD "")).1 : Int) < maxP := by
                  omega
                rw [dictGetIns_fst, hinv (ep.feedName.getD "")] at h1
                rw [← hf]
                push_cast
                omega
              · rw [if_neg hf]
                have := hcap hmp f
                push_cast
                omega
            obtain ⟨c1, c2, c3, c4, c5⟩ := ih (sel ++ [mkSelected ep exC])
              (dictIncr (dictGetIns counts (ep.feedName.getD "")).2 (ep.feedName.getD ""))
              hn' hinv' hmem' hcap'
            refine ⟨c1, c2, c3, ?_, c5⟩
            have hlen1 : ((sel ++ [mkSelected ep exC]).length : Int)
                = (sel.length : Int) + 1 := by simp
            rw [hlen1] at c4
            have hmx : max ((sel.length : Int) + 1) maxT = maxT :=
              max_eq_right (by omega)
            rw [hmx] at c4
            exact le_trans c4 (le_max_right _ _)
        · rw [if_neg hmp]
          have hn' : (((dictIncr counts (ep.feedName.getD "")).map Prod.fst).Nodup) :=
            dictSet_nodup _ _ _ hn
          have hinv' : ∀ k,
              (dictLookup (dictIncr counts (ep.feedName.getD "")) k).getD 0
                = ((sel ++ [mkSelected ep exC]).filter
                    (fun e => e.feedName = k)).length := by
            intro k
            rw [List.filter_append, List.length_append, filter_singleton_feed, hxfeed]
            by_cases hk : ep.feedName.getD "" = k
            · rw [if_pos hk, ← hk]
              rw [dictIncr, dictSet_lookup_self]
              simp only [Option.getD_some]
              rw [hinv (ep.feedName.getD "")]
            · rw [if_neg hk]
              rw [dictIncr, dictSet_lookup_other _ _ _ _ (fun he => hk he.symm), hinv k]
              omega
          have hmem' : ∀ e ∈ sel ++ [mkSelected ep exC],
              e.feedName ∈ (dictIncr counts (ep.feedName.getD "")).map Prod.fst := by
            intro e he
            rcases List.mem_append.mp he with h' | h'
            · exact dictSet_keys_sup _ _ _ _ (hmem e h')
            · have heq : e = mkSelected ep exC := by simpa using h'
              rw [heq, hxfeed]
              exact dictSet_key_self _ _ _
          have hcap' : 0 < maxP → ∀ f,
              (((sel ++ [mkSelected ep exC]).filter
                  (fun e => e.feedName = f)).length : Int) ≤ maxP :=
            fun hmp' => absurd hmp' hmp
          obtain ⟨c1, c2, c3, c4, c5⟩ := ih (sel ++ [mkSelected ep exC])
            (dictIncr counts (ep.feedName.getD "")) hn' hinv' hmem' hcap'
          refine ⟨c1, c2, c3, ?_, c5⟩
          have hlen1 : ((sel ++ [mkSelected ep exC]).length : Int)
              = (sel.length : Int) + 1 := by simp
          rw [hlen1] at c4
          have hmx : max ((sel.length : Int) + 1) maxT = maxT :=
            max_eq_right (by omega)
          rw [hmx] at c4
          exact le_trans c4 (le_max_right _ _)

theorem selectLoop_break (eps : List FetchedEpisode) (maxT maxP exC : Int)
    (sel : List SelectedEpisode) (counts : List (String × Nat))
    (h : (sel.length : Int) ≥ maxT) :
    selectLoop eps maxT maxP exC sel counts = (sel, counts) := by
  cases eps with
  | nil => rfl
  | cons ep rest =>
    simp only [selectLoop]
    rw [if_pos h]

/-- Episodes with a blank transcript are invisible to the selection loop:
filtering them away first changes nothing, so they consume no cap slot. -/
theorem selectLoop_filter_blank (maxT maxP exC : Int) (eps : List FetchedEpisode) :
    ∀ (sel : List SelectedEpisode) (counts : List (String × Nat)),
      selectLoop (eps.filter
          (fun ep => !(pyStrip (ep.transcript.getD "").data).isEmpty))
          maxT maxP exC sel counts
        = selectLoop eps maxT maxP exC sel counts := by
  induction eps with
  | nil => intro sel counts; rfl
  | cons ep rest ih =>
    intro sel counts
    rw [List.filter_cons]
    by_cases hblank : pyStrip (ep.transcript.getD "").data = []
    · have hcond : (!(pyStrip (ep.transcript.getD "").data).isEmpty) = false := by
        rw [hblank]; rfl
      rw [hcond]
      simp only [Bool.false_eq_true, if_false]
      rw [ih]
      by_cases hbreak : (sel.length : Int) ≥ maxT
      · rw [selectLoop_break rest maxT maxP exC sel counts hbreak]
        simp only [selectLoop]
        rw [if_pos hbreak]
      · conv_rhs => simp only [selectLoop]
        rw [if_neg hbreak, if_pos hblank]
    · have hcond : (!(pyStrip (ep.transcript.getD "").data).isEmpty) = true := by
        cases hx : pyStrip (ep.transcript.getD "").data with
        | nil => exact absurd hx hblank
        | cons a l => rfl
      rw [hcond]
      simp only [if_true]
      simp only [selectLoop]
      by_cases hbreak : (sel.length : Int) ≥ maxT
      · rw [if_pos hbreak, if_pos hbreak]
      · rw [if_neg hbreak, if_neg hbreak, if_neg hblank, if_neg hblank]
        by_cases hmp : 0 < maxP
        · rw [if_pos hmp, if_pos hmp]
          by_cases hskip : ((dictGetIns counts (ep.feedName.getD "")).1 : Int) ≥ maxP
          · rw [if_pos hskip, if_pos hskip]
            exact ih _ _
          · rw [if_neg hskip, if_neg hskip]
            exact ih _ _
        · rw [if_neg hmp, if_neg hmp]
          exact ih _ _

/-- The dict filter `len([k for k, v in per_feed_counts.items() if v > 0])`
counts exactly the distinct feed names among the selected episodes. -/
theorem counts_feedCount (sel : List SelectedEpisode) (counts : List (String × Nat))
    (hn : (counts.map Prod.fst).Nodup)
    (hinv : ∀ k, (dictLookup counts k).getD 0
        = (sel.filter (fun e => e.feedName = k)).length) :
    (counts.filter (fun kv => 0 < kv.2)).length
      = ((sel.map (fun e => e.feedName)).dedup).length := by
  have hAnodup : (((counts.filter (fun kv => 0 < kv.2)).map Prod.fst)).Nodup :=
    hn.sublist ((List.filter_sublist _).map Prod.fst)
  have hBnodup : ((sel.map (fun e => e.feedName)).dedup).Nodup := List.nodup_dedup _
  have hiff : ∀ x, x ∈ (counts.filter (fun kv => 0 < kv.2)).map Prod.fst
      ↔ x ∈ (sel.map (fun e => e.feedName)).dedup := by
    intro x
    constructor
    · intro hx
      obtain ⟨kv, hkv, hfst⟩ := List.mem_map.mp hx
      obtain ⟨hkvc, hpos⟩ := List.mem_filter.mp hkv
      obtain ⟨k, v⟩ := kv
      have hk : k = x := hfst
      rw [hk] at hkvc
      have hlk := mem_dictLookup_of_nodup counts hn x v hkvc
      have hcnt : 0 < (sel.filter (fun e => e.feedName = x)).length := by
        rw [← hinv x, hlk]
        exact of_decide_eq_true hpos
      obtain ⟨e, he⟩ := List.exists_mem_of_length_pos hcnt
      obtain ⟨hes, hef⟩ := List.mem_filter.mp he
      rw [List.mem_dedup]
      exact List.mem_map.mpr ⟨e, hes, of_decide_eq_true hef⟩
    · intro hx
      rw [List.mem_dedup] at hx
      obtain ⟨e, hes, hef⟩ := List.mem_map.mp hx
      have he : e ∈ sel.filter (fun e => e.feedName = x) :=
        List.mem_filter.mpr ⟨hes, decide_eq_true hef⟩
      have hcnt : 0 < (sel.filter (fun e => e.feedName = x)).length :=
        List.length_pos_of_mem he
      rw [← hinv x] at hcnt
      cases hlk : dictLookup counts x with
      | none => rw [hlk] at hcnt; cases hcnt
      | some v =>
        rw [hlk] at hcnt
        refine List.mem_map.mpr ⟨(x, v), ?_, rfl⟩
        exact List.mem_filter.mpr
          ⟨dictLookup_eq_some_mem counts x v hlk, decide_eq_true hcnt⟩
  have hperm : ((counts.filter (fun kv => 0 < kv.2)).map Prod.fst).Perm
      ((sel.map (fun e => e.feedName)).dedup) :=
    (List.perm_ext_iff_of_nodup hAnodup hBnodup).mpr hiff
  have := hperm.length_eq
  rw [List.length_map] at this
  exact this

/-- Counterexample to claim C3 as stated: with `maxEpisodesPerFeed = 0` the
code disables the per-feed cap (the guard reads
`if max_episodes_per_feed > 0 and ...`), so one episode of feed "f" is
selected even though the claim, read over every choice of caps, allows at
most 0 episodes for that feed. -/
theorem exportTranscriptsJson_perFeed_counterexample :
    ¬((((exportTranscriptsJson [cxEpisode] 168 1 0 100).episodes.filter
        (fun e => e.feedName = "f")).length : Int) ≤ 0) := by
  decide

/-- Claim C3, amended: the total selection never exceeds
`max(0, maxEpisodesTotal)`; when `maxEpisodesPerFeed` is positive no feed
contributes more than `maxEpisodesPerFeed` episodes (a non-positive per-feed
cap disables the per-feed limit); episodes whose transcript is empty or
whitespace-only are skipped without counting against either cap (filtering
them out beforehand changes nothing); and the reported `feedCount` equals the
number of distinct feed names contributing at least one selected episode. -/
theorem exportTranscriptsJson_caps (eps : List FetchedEpisode)
    (lb maxT maxP exC : Int) :
    ((exportTranscriptsJson eps lb maxT maxP exC).episodes.length : Int) ≤ max 0 maxT
    ∧ (0 < maxP → ∀ f,
        (((exportTranscriptsJson eps lb maxT maxP exC).episodes.filter
            (fun e => e.feedName = f)).length : Int) ≤ maxP)
    ∧ exportTranscriptsJson
        (eps.filter (fun ep => !(pyStrip (ep.transcript.getD "").data).isEmpty))
        lb maxT maxP exC
      = exportTranscriptsJson eps lb maxT maxP exC
    ∧ (exportTranscriptsJson eps lb maxT maxP exC).episodeCount
      = (exportTranscriptsJson eps lb maxT maxP exC).episodes.length
    ∧ (exportTranscriptsJson eps lb maxT maxP exC).feedCount
      = ((exportTranscriptsJson eps lb maxT maxP exC).episodes.map
          (fun e => e.feedName)).dedup.length := by
  obtain ⟨c1, c2, c3, c4, c5⟩ := selectLoop_spec maxT maxP exC eps ([]) ([])
    (by simp) (fun k => rfl) (by simp)
    (fun hm f => by
      simp only [List.filter_nil, List.length_nil, Int.natCast_zero]
      exact le_of_lt hm)
  refine ⟨?_, ?_, ?_, rfl, ?_⟩
  · simpa using c4
  · exact c5
  · simp only [exportTranscriptsJson, selectLoop_filter_blank]
  · exact counts_feedCount _ _ c1 c2

/-- Witness for the amended C3 at a concrete input. -/
theorem exportTranscriptsJson_caps_witness :
    ((exportTranscriptsJson [cxEpisode] 168 2 1 100).episodes.length : Int) ≤ max 0 2
    ∧ (0 < (1 : Int) → ∀ f,
        (((exportTranscriptsJson [cxEpisode] 168 2 1 100).episodes.filter
            (fun e => e.feedName = f)).length : Int) ≤ 1)
    ∧ exportTranscriptsJson
        ([cxEpisode].filter (fun ep => !(pyStrip (ep.transcript.getD "").data).isEmpty))
        168 2 1 100
      = exportTranscriptsJson [cxEpisode] 168 2 1 100
    ∧ (exportTranscriptsJson [cxEpisode] 168 2 1 100).episodeCount
      = (exportTranscriptsJson [cxEpisode] 168 2 1 100).episodes.length
    ∧ (exportTranscriptsJson [cxEpisode] 168 2 1 100).feedCount
      = ((exportTranscriptsJson [cxEpisode] 168 2 1 100).episodes.map
          (fun e => e.feedName)).dedup.length :=
  exportTranscriptsJson_caps [cxEpisode] 168 2 1 100

/-! ## Claim theorems for episode identity, the audio cache and the date
formatter -/

set_option maxRecDepth 10000 in
/-- Counterexample to claim C6 as stated: an entry that has a guid/id field
holding the empty string is not identified by that guid verbatim — the code's
truthiness tests (`or` and `if guid:`) treat it as absent and fall back to
the 32-character hash, which is not the empty string. -/
theorem getEpisodeId_verbatim_counterexample :
    cxEntry.id = some "" ∧ getEpisodeId cxEntry "u" ≠ "" :=
  ⟨rfl, by decide⟩

theorem getEpisodeId_hash (e : FeedEntry) (feedUrl : String)
    (h : (entryGuid e).getD "" = "") :
    getEpisodeId e feedUrl
      = (sha256Hex (feedUrl ++ ":" ++ e.title.getD "unknown")).take 32 := by
  simp only [getEpisodeId]
  rw [if_neg (fun hc => hc h)]

/-- Claim C6, amended: when the entry carries a truthy (non-empty) guid — the
first non-empty of its id and guid fields — the identity is that guid
verbatim; otherwise the identity is the 32-character truncation of the
SHA-256 hex digest of `feedUrl ++ ":" ++ title` (title defaulting to
"unknown"), and it is a pure function of `(feedUrl, title)`: entries with the
same title field always get the same id. -/
theorem getEpisodeId_spec (e : FeedEntry) (feedUrl : String) :
    (∀ g, entryGuid e = some g → g ≠ "" → getEpisodeId e feedUrl = g)
    ∧ ((entryGuid e).getD "" = "" →
        getEpisodeId e feedUrl
          = (sha256Hex (feedUrl ++ ":" ++ e.title.getD "unknown")).take 32)
    ∧ (∀ e' : FeedEntry, (entryGuid e).getD "" = "" → (entryGuid e').getD "" = "" →
        e.title = e'.title → getEpisodeId e feedUrl = getEpisodeId e' feedUrl) := by
  refine ⟨?_, getEpisodeId_hash e feedUrl, ?_⟩
  · intro g hg hne
    simp only [getEpisodeId, hg, Option.getD_some]
    rw [if_pos hne]
  · intro e' h h' ht
    rw [getEpisodeId_hash e feedUrl h, getEpisodeId_hash e' feedUrl h', ht]

/-- Witness for the amended C6 at a concrete entry. -/
theorem getEpisodeId_spec_witness :
    (∀ g, entryGuid ⟨some "g-1", none, some "t"⟩ = some g → g ≠ "" →
        getEpisodeId ⟨some "g-1", none, some "t"⟩ "u" = g)
    ∧ ((entryGuid (⟨some "g-1", none, some "t"⟩ : FeedEntry)).getD "" = "" →
        getEpisodeId ⟨some "g-1", none, some "t"⟩ "u"
          = (sha256Hex ("u" ++ ":" ++ (some "t" : Option String).getD "unknown")).take 32)
    ∧ (∀ e' : FeedEntry,
        (entryGuid (⟨some "g-1", none, some "t"⟩ : FeedEntry)).getD "" = "" →
        (entryGuid e').getD "" = "" →
        (some "t" : Option String) = e'.title →
        getEpisodeId ⟨some "g-1", none, some "t"⟩ "u" = getEpisodeId e' "u") :=
  getEpisodeId_spec ⟨some "g-1", none, some "t"⟩ "u"

set_option maxRecDepth 10000 in
/-- C2, evaluated at the failing input: with an empty cache, a download of
`cxUrl` that raises a transport error after one 2-byte chunk leaves that
partial chunk stored at the final cache path, and a subsequent
`download_audio` call recognizes it as a cache hit and returns it without
re-fetching. -/
theorem downloadAudio_partial_cache_bug :
    (downloadAudio [] cxUrl "cache" false ["AB"] true).2 = none
    ∧ fsGet (downloadAudio [] cxUrl "cache" false ["AB"] true).1
        (episodeCachePath cxUrl "cache") = some "AB"
    ∧ downloadAudio (downloadAudio [] cxUrl "cache" false ["AB"] true).1
        cxUrl "cache" false [] false
      = ((downloadAudio [] cxUrl "cache" false ["AB"] true).1,
         some (episodeCachePath cxUrl "cache")) := by
  decide

/-- Counterexample to claim C7 as stated: for `publishedAt = some ""` the
code returns "unknown date" (the falsiness test `if not published_at` fires),
while the claim's branch order yields the first 20 characters of the raw
string, i.e. the empty string. -/
theorem formatDate_empty_counterexample :
    formatDate rfcParseNone (some "") = "unknown date"
    ∧ formatDateSpec rfcParseNone (some "") = ""
    ∧ formatDate rfcParseNone (some "") ≠ formatDateSpec rfcParseNone (some "") := by
  refine ⟨by decide, by decide, by decide⟩

/-- Claim C7, amended: the date formatter agrees with the claim's branch
structure on every input once an empty `publishedAt` string is treated like
an absent one. -/
theorem formatDate_eq_specAmended (rfcToIso : String → Option String)
    (publishedAt : Option String) :
    formatDate rfcToIso publishedAt = formatDateSpecAmended rfcToIso publishedAt := by
  cases publishedAt with
  | none => rfl
  | some s =>
    by_cases hs : s = ""
    · simp only [formatDate, formatDateSpecAmended, if_pos hs]
    · simp only [formatDate, formatDateSpecAmended, formatDateSpec, if_neg hs]

end PodScraper
